import Mathlib

/-!
Verification development for the query-compilation layer of graphjoiner
(`graphjoiner/requests.py`).  The module compiles a parsed GraphQL document
against a schema of duck-typed type descriptors into a canonical `Request`
tree, splitting off an introspection (`__schema`) sub-document.

The embedding below translates `requests.py` function by function.  Python
exceptions become an `Except CompileError` result; the unbounded recursion of
the source (fragment expansion and tree building re-enter themselves through
data, not structure) is made total with an explicit fuel parameter, every
other aspect of evaluation order and data flow following the source.

`graphjoiner/util.py` (the `find` and `single` helpers) and the type classes
providing the duck-typed `fields()` registry are part of the repository but
are not among the available source files; they are modelled from the spec
where marked.
-/

namespace GraphJoiner

/-- Argument / runtime values, as far as this layer inspects them: boolean
literals, string literals, and variable references.  Variable bindings hold
already-coerced runtime values (spec section 6). -/
inductive GValue where
  | boolean (b : Bool)
  | stringValue (s : String)
  | var (name : String)
deriving DecidableEq

/-- One argument of a field or directive in the query AST. -/
structure Argument where
  name : String
  value : GValue
deriving DecidableEq

/-- One directive annotation in the query AST. -/
structure Directive where
  name : String
  arguments : List Argument
deriving DecidableEq

/-- A selection in a selection set: a field (with optional alias, arguments,
directives and an optional sub-selection set), a named fragment spread, or an
inline fragment.  Type conditions are carried where the AST has them but are
never consulted by the compiler, mirroring the source. -/
inductive Selection where
  | field (aliasName : Option String) (name : String) (arguments : List Argument)
      (directives : List Directive) (selectionSet : Option (List Selection))
  | fragmentSpread (name : String) (directives : List Directive)
  | inlineFragment (typeCondition : Option String) (directives : List Directive)
      (selectionSet : List Selection)

/-- A top-level definition of a document: an operation (its `operation` string
is "query", "mutation", ...) or a named fragment definition. -/
inductive Definition where
  | operation (operationType : String) (selectionSet : List Selection)
  | fragmentDefinition (name : String) (typeCondition : String)
      (selectionSet : List Selection)

/-- A parsed GraphQL document. -/
structure Document where
  definitions : List Definition

mutual
/-- Duck-typed schema objects.  A type descriptor carries its field entries
(name, internal flag, field descriptor); a field descriptor carries its
target type, absent for scalar fields. -/
inductive TypeDescriptor where
  | mk (allFields : List FieldEntry)
inductive FieldEntry where
  | mk (name : String) ( internalField : Bool) (descriptor : FieldDescriptor)
inductive FieldDescriptor where
  | mk (target : Option TypeDescriptor)
end

def FieldDescriptor.target : FieldDescriptor → Option TypeDescriptor
  | .mk t => t

def FieldEntry.name : FieldEntry → String
  | .mk n _ _ => n

def FieldEntry.internalField : FieldEntry → Bool
  | .mk _ i _ => i

def FieldEntry.descriptor : FieldEntry → FieldDescriptor
  | .mk _ _ d => d

def TypeDescriptor.allFields : TypeDescriptor → List FieldEntry
  | .mk fs => fs

/-- Modelled from the spec: the type classes supplying the duck-typed
`fields()` registry are not among the available sources; the spec (sections 3
and 7) states that fields marked internal are absent from the registry used
for direct querying while remaining declared on the type. -/
def TypeDescriptor.fields (t : TypeDescriptor) : List (String × FieldDescriptor) :=
  (t.allFields.filter (fun e => !e.internalField)).map (fun e => (e.name, e.descriptor))

/-- Compilation failures.  Each constructor corresponds to one failure site of
the source: the fragment-table and field-registry lookups (Python `KeyError` /
the registry's "cannot query field" error), the unknown-directive branch of
`_should_include_node`, the `util.single` failures on the operation count
(spec-named `NoOperationError` / `MultipleOperationsError`), Python attribute
errors on nodes lacking the accessed attribute, and exhaustion of the fuel
that stands in for Python's unbounded recursion. -/
inductive CompileError where
  | noOperation
  | multipleOperations
  | unknownFragment (name : String)
  | unknownDirective (name : String)
  | unknownField (name : String)
  | attributeError (attr : String)
  | recursionError
deriving DecidableEq

/-- A compiled request node (`Request` in the source): output key, field
descriptor, bound arguments, optional ordered children, and the
join-selections slot that is always empty at this layer. -/
inductive Request where
  | mk (key : Option String) (fieldDescriptor : Option FieldDescriptor)
      (args : List (String × GValue)) (selections : Option (List Request))
      (joinSelections : List Request)

def Request.key : Request → Option String
  | .mk k _ _ _ _ => k

def Request.fieldDescriptor : Request → Option FieldDescriptor
  | .mk _ f _ _ _ => f

def Request.args : Request → List (String × GValue)
  | .mk _ _ a _ _ => a

def Request.selections : Request → Option (List Request)
  | .mk _ _ _ s _ => s

def Request.joinSelections : Request → List Request
  | .mk _ _ _ _ j => j

/-- The result of compiling a whole document (`DocumentRequest` in the
source): the main request tree and the optional introspection sub-document. -/
structure DocumentRequest where
  query : Request
  schema_query : Option Document

/-- Directives attached to a selection (`node.directives`). -/
def Selection.directives : Selection → List Directive
  | .field _ _ _ ds _ => ds
  | .fragmentSpread _ ds => ds
  | .inlineFragment _ ds _ => ds

/-- Selection set of a selection (`ast.selection_set`); fragment spreads have
none.  Only field selections reach the places that read it. -/
def Selection.selectionSet : Selection → Option (List Selection)
  | .field _ _ _ _ ss => ss
  | .fragmentSpread _ _ => none
  | .inlineFragment _ _ ss => some ss

/-- Arguments of a selection (`getattr(ast, "arguments", [])`). -/
def Selection.argumentsOf : Selection → List Argument
  | .field _ _ args _ _ => args
  | .fragmentSpread _ _ => []
  | .inlineFragment _ _ _ => []

/-- `_field_name`: `ast.name.value`.  Field and spread nodes have a name;
inline fragments do not (only field selections reach the callers). -/
def field_name : Selection → String
  | .field _ n _ _ _ => n
  | .fragmentSpread n _ => n
  | .inlineFragment _ _ _ => ""

/-- `field_key`: the alias if present, else the field name.  Called only on
field selections in the source. -/
def field_key : Selection → String
  | .field a n _ _ _ => a.getD n
  | .fragmentSpread n _ => n
  | .inlineFragment _ _ _ => ""

/-- Replace the selection set of a field selection; used by `_merge_fields`,
which only ever stores field selections. -/
def setSelectionSet : Selection → List Selection → Selection
  | .field a n args ds _, newSS => .field a n args ds (some newSS)
  | s, _ => s

/-- Python dict lookup over an insertion-ordered association list: the last
binding of a key wins. -/
def dict_lookup {α : Type} (entries : List (String × α)) (key : String) : Option α :=
  entries.reverse.lookup key

/-- Modelled from the spec: argument coercion is delegated to an external
collaborator (`get_argument_values`).  For the `skip` / `include` directives
it resolves the boolean `if` argument from a literal or from the variable
bindings, leaving it unsupplied when absent or bound to no variable. -/
def resolveIfArgument (arguments : List Argument) (vars : List (String × GValue)) :
    Option GValue :=
  match arguments.find? (fun a => a.name == "if") with
  | none => none
  | some a =>
    match a.value with
    | .var v => dict_lookup vars v
    | lit => some lit

/-- `_should_include_node`: walk the directives in order; a `skip` whose `if`
coerces to `True` or an `include` whose `if` coerces to `False` returns
exclusion immediately; any other directive name raises. -/
def should_include_node (directives : List Directive) (vars : List (String × GValue)) :
    Except CompileError Bool :=
  match directives with
  | [] => .ok true
  | d :: rest =>
    if d.name == "skip" then
      if resolveIfArgument d.arguments vars == some (.boolean true) then .ok false
      else should_include_node rest vars
    else if d.name == "include" then
      if resolveIfArgument d.arguments vars == some (.boolean false) then .ok false
      else should_include_node rest vars
    else .error (.unknownDirective d.name)

/-- Modelled from the spec: field argument binding is delegated to the
external coercer; it resolves each literal to itself and each variable
reference to its bound runtime value, dropping unbound ones. -/
def bindArguments (arguments : List Argument) (vars : List (String × GValue)) :
    List (String × GValue) :=
  arguments.filterMap (fun a =>
    match a.value with
    | .var v => (dict_lookup vars v).map (fun val => (a.name, val))
    | lit => some (a.name, lit))

/-- The fragment table built by `request_from_graphql_document`: name,
type condition and selection set of every fragment definition. -/
def fragment_table (definitions : List Definition) :
    List (String × String × List Selection) :=
  definitions.filterMap (fun d =>
    match d with
    | .fragmentDefinition n tc ss => some (n, (tc, ss))
    | _ => none)

/-- Sequence a fallible function over a list, collecting the concatenated
results; the expansion loop of `_add_fields`. -/
def expandList (f : Selection → Except CompileError (List Selection)) :
    List Selection → Except CompileError (List Selection)
  | [] => .ok []
  | s :: rest => do
    let head ← f s
    let tail ← expandList f rest
    .ok (head ++ tail)

/-- `_add_fields` on a single selection: a field passing the directive check
is kept; a fragment spread is looked up in the fragment table (`KeyError`,
i.e. `UnknownFragmentError`, when absent) and expanded recursively; an inline
fragment is expanded recursively, its type condition ignored.  The fuel
bounds the expansion depth that Python leaves unbounded. -/
def add_fields (fragments : List (String × String × List Selection))
    (vars : List (String × GValue)) :
    Nat → Selection → Except CompileError (List Selection)
  | fuel, s => do
    let keep ← should_include_node s.directives vars
    if keep then
      match s with
      | .field .. => .ok [s]
      | .fragmentSpread name _ =>
        match dict_lookup fragments name with
        | none => .error (.unknownFragment name)
        | some frag =>
          match fuel with
          | 0 => .error .recursionError
          | f + 1 => expandList (add_fields fragments vars f) frag.2
      | .inlineFragment _ _ ss =>
        match fuel with
        | 0 => .error .recursionError
        | f + 1 => expandList (add_fields fragments vars f) ss
    else .ok []

/-- `_collect_fields`: expand a whole selection set into a flat ordered list
of field selections. -/
def collect_fields (fragments : List (String × String × List Selection))
    (vars : List (String × GValue)) (fuel : Nat) (selections : List Selection) :
    Except CompileError (List Selection) :=
  expandList (add_fields fragments vars fuel) selections

/-- The in-place extension step of `_merge_fields` on an existing key: find
the stored selection with that key and append the incoming selections to its
selection set.  When the stored selection has no selection set the source
dereferences `None` (`AttributeError`). -/
def updateStored : List Selection → String → List Selection →
    Except CompileError (List Selection)
  | [], _, _ => .ok []
  | t :: rest, k, newSels =>
    if field_key t == k then
      match t.selectionSet with
      | none => .error (.attributeError "selections")
      | some old => .ok (setSelectionSet t (old ++ newSels) :: rest)
    else do
      let rest2 ← updateStored rest k newSels
      .ok (t :: rest2)

/-- One iteration of the `_merge_fields` loop: a new key is stored as-is at
the end; an existing key with an incoming selection set extends the stored
entry in place; an existing key with a leaf incoming selection is a no-op. -/
def mergeStep (merged : List Selection) (s : Selection) :
    Except CompileError (List Selection) :=
  if (merged.map field_key).contains (field_key s) then
    match s.selectionSet with
    | none => .ok merged
    | some newSels => updateStored merged (field_key s) newSels
  else .ok (merged ++ [s])

/-- The `_merge_fields` loop over the remaining selections, carrying the
insertion-ordered merged entries. -/
def mergeLoop (merged : List Selection) : List Selection →
    Except CompileError (List Selection)
  | [] => .ok merged
  | s :: rest => do
    let merged2 ← mergeStep merged s
    mergeLoop merged2 rest

/-- `_merge_fields`: fold the merge step over the collected field selections,
returning the merged selections in first-seen key order. -/
def merge_fields (selections : List Selection) : Except CompileError (List Selection) :=
  mergeLoop [] selections

/-- `root.fields()`: a scalar field has no target type, so requesting
sub-selections of one dereferences a missing attribute. -/
def rootFields : Option TypeDescriptor → Except CompileError (List (String × FieldDescriptor))
  | none => .error (.attributeError "fields")
  | some t => .ok t.fields

/-- Modelled from the spec: the registry lookup `fields[name]` fails with the
"cannot query field" error (`UnknownFieldError`) on a name absent from the
type's registry. -/
def fieldsLookup (fields : List (String × FieldDescriptor)) (name : String) :
    Except CompileError FieldDescriptor :=
  match dict_lookup fields name with
  | some f => .ok f
  | none => .error (.unknownField name)

/-- Sequence a fallible function over a list (`Except`-valued map); the list
comprehension of `_graphql_selections`. -/
def exceptMap {α β : Type} (f : α → Except CompileError β) :
    List α → Except CompileError (List β)
  | [] => .ok []
  | a :: rest => do
    let b ← f a
    let bs ← exceptMap f rest
    .ok (b :: bs)

/-- `_graphql_selections` together with the recursion of
`request_from_graphql_ast` / `_request_from_selection`: with no selection set
the request is a leaf; otherwise fetch the registry, collect and merge the
field selections, drop the ones named `__schema`, and for each remaining one
look up its descriptor and recurse against the descriptor's target type.  The
fuel bounds the nesting depth that Python leaves unbounded. -/
def graphql_selections (fragments : List (String × String × List Selection))
    (vars : List (String × GValue)) :
    Nat → Option (List Selection) → Option TypeDescriptor →
    Except CompileError (Option (List Request))
  | _, none, _ => .ok none
  | 0, some _, _ => .error .recursionError
  | fuel + 1, some sels, root => do
    let fields ← rootFields root
    let collected ← collect_fields fragments vars (fuel + 1) sels
    let merged ← merge_fields collected
    let children ← exceptMap (fun s => do
        let fd ← fieldsLookup fields (field_name s)
        let subs ← graphql_selections fragments vars fuel s.selectionSet fd.target
        .ok (Request.mk (some (field_key s)) (some fd)
          (bindArguments s.argumentsOf vars) subs []))
      (merged.filter (fun s => !(field_name s == "__schema")))
    .ok (some children)

/-- Python's `enumerate`, pairing each element with its index. -/
def enumerateFrom {α : Type} (i : Nat) : List α → List (Nat × α)
  | [] => []
  | a :: rest => (i, a) :: enumerateFrom (i + 1) rest

/-- Modelled from the spec: `util.single` (not among the available sources)
requires exactly one element, the spec naming the failures `NoOperationError`
and `MultipleOperationsError`. -/
def singleOf {α : Type} : List α → Except CompileError α
  | [] => .error .noOperation
  | [p] => .ok p
  | _ => .error .multipleOperations

/-- The enumerated operation definitions of a document
(`filter(..., enumerate(document.definitions))`). -/
def operation_definitions (definitions : List Definition) :
    List (Nat × String × List Selection) :=
  (enumerateFrom 0 definitions).filterMap (fun p =>
    match p.2 with
    | .operation t ss => some (p.1, (t, ss))
    | _ => none)

/-- `single(list(filter(...)))` applied to the enumerated operation
definitions. -/
def single_operation (definitions : List Definition) :
    Except CompileError (Nat × String × List Selection) :=
  singleOf (operation_definitions definitions)

/-- Modelled from the spec: `util.find` (not among the available sources)
returns the first element satisfying the predicate, else nothing.  The
predicate from the source reads `selection.name.value`, an attribute inline
fragment nodes lack (Python `AttributeError`). -/
def find_schema_selection : List Selection → Except CompileError (Option Selection)
  | [] => .ok none
  | .inlineFragment _ _ _ :: _ => .error (.attributeError "name")
  | s :: rest =>
    if field_name s == "__schema" then .ok (some s)
    else find_schema_selection rest

/-- `request_from_graphql_document`: index the fragment definitions, require
exactly one operation, pick the root type, split off the first top-level
selection named `__schema` into a copy of the document whose operation keeps
only that selection, and compile the operation's selection set into the main
request tree. -/
def request_from_graphql_document (fuel : Nat) (document : Document)
    (query_root mutation_root : TypeDescriptor) (vars : List (String × GValue)) :
    Except CompileError DocumentRequest := do
  let fragments := fragment_table document.definitions
  let op ← single_operation document.definitions
  let root := if op.2.1 == "mutation" then mutation_root else query_root
  let schema_selection ← find_schema_selection op.2.2
  let schema_query :=
    match schema_selection with
    | none => none
    | some sel =>
      some (Document.mk (document.definitions.set op.1 (.operation op.2.1 [sel])))
  let selections ← graphql_selections fragments vars fuel (some op.2.2) (some root)
  .ok ⟨Request.mk none none [] selections [], schema_query⟩

/-! Specification-side predicates used to state the claims, and the concrete
documents and schemas the examples of the spec are built from. -/

/-- First-seen deduplication of a key sequence relative to keys already seen:
the order the spec requires of the merged output keys. -/
def firstSeenFrom (seen : List String) : List String → List String
  | [] => []
  | k :: rest =>
    if seen.contains k then firstSeenFrom seen rest
    else k :: firstSeenFrom (seen ++ [k]) rest

/-- A directive excludes its selection when it is a `skip` whose `if` resolves
to `true` or an `include` whose `if` resolves to `false`. -/
def excludesDirective (vars : List (String × GValue)) (d : Directive) : Bool :=
  (d.name == "skip" && resolveIfArgument d.arguments vars == some (.boolean true)) ||
  (d.name == "include" && resolveIfArgument d.arguments vars == some (.boolean false))

/-- A plain leaf field selection: no directives, no sub-selection set. -/
def isPlainLeafField : Selection → Bool
  | .field _ _ _ [] none => true
  | _ => false

/-- A selection that is not an inline fragment (fields and spreads carry a
name). -/
def notInline : Selection → Bool
  | .inlineFragment _ _ _ => false
  | _ => true

/-- The operation definitions of a definition list, without their indices. -/
def operationsOf (definitions : List Definition) : List (String × List Selection) :=
  definitions.filterMap (fun d =>
    match d with
    | .operation t ss => some (t, ss)
    | _ => none)

/-- A scalar field descriptor. -/
def leafDescriptor : FieldDescriptor := .mk none

/-- A root type with two scalar fields `a` and `b`. -/
def abRoot : TypeDescriptor :=
  .mk [.mk "a" false leafDescriptor, .mk "b" false leafDescriptor]

/-- A field selection with no alias, arguments, directives or children. -/
def leafField (n : String) : Selection := .field none n [] [] none

/-- A field selection with a sub-selection set. -/
def fieldWith (n : String) (ss : List Selection) : Selection := .field none n [] [] (some ss)

/-- The document `{b a b}` of the spec's merge-order example. -/
def babDocument : Document :=
  ⟨[.operation "query" [leafField "b", leafField "a", leafField "b"]]⟩

/-- The document `{__schema {x} a a}`: an introspection selection next to a
duplicated data selection. -/
def schemaDupDocument : Document :=
  ⟨[.operation "query" [fieldWith "__schema" [leafField "x"], leafField "a", leafField "a"]]⟩

/-- The document `{a ...F} fragment F on T {a}` of the spec's
fragment-transparency example. -/
def fragmentDocument : Document :=
  ⟨[.operation "query" [leafField "a", .fragmentSpread "F" []],
    .fragmentDefinition "F" "T" [leafField "a"]]⟩

/-- The document `{a}`. -/
def plainADocument : Document := ⟨[.operation "query" [leafField "a"]]⟩

/-- A root type whose field `a` targets an object type with one field `x`. -/
def nestedRoot : TypeDescriptor :=
  .mk [.mk "a" false (.mk (some (.mk [.mk "x" false leafDescriptor]))) ]

/-- The document `{a {__schema}}`: an introspection selection nested below
the top level. -/
def nestedSchemaDocument : Document :=
  ⟨[.operation "query" [fieldWith "a" [leafField "__schema"]]]⟩

/-- The document `{field @skip(if: $x)}`. -/
def skipVarDocument : Document :=
  ⟨[.operation "query" [.field none "a" [] [⟨"skip", [⟨"if", .var "x"⟩]⟩] none]]⟩

/-- The document `{field @skip}` with the `if` argument omitted. -/
def skipBareDocument : Document :=
  ⟨[.operation "query" [.field none "a" [] [⟨"skip", []⟩] none]]⟩

/-- A type with a queryable `title` field and an internal `author_id` field,
after the internal-field test of the declarative layer. -/
def bookType : TypeDescriptor :=
  .mk [.mk "title" false leafDescriptor, .mk "author_id" true leafDescriptor]

/-! Helper lemmas. -/

theorem except_bind_ok {α β : Type} (a : α) (f : α → Except CompileError β) :
    (Except.ok a >>= f : Except CompileError β) = f a := rfl

theorem except_bind_error {α β : Type} (e : CompileError) (f : α → Except CompileError β) :
    ((Except.error e : Except CompileError α) >>= f) = .error e := rfl

theorem except_pure_def {α : Type} (a : α) : (pure a : Except CompileError α) = .ok a := rfl

theorem field_key_setSelectionSet (s : Selection) (l : List Selection) :
    field_key (setSelectionSet s l) = field_key s := by
  cases s <;> rfl

/-- C6 counterexample: in `{a, a {b}}` the stored selection for key `a` has no
selection set while the incoming one does; the merge dereferences the missing
selection set and fails instead of extending the stored entry. -/
theorem one_sided_merge_counterexample :
    merge_fields [leafField "a", fieldWith "a" [leafField "b"]] =
      .error (.attributeError "selections") := rfl

/-- C6 (amended): when the stored selection has a selection set and the
incoming same-key selection has none, the stored entry is kept unchanged in
its position; in the opposite one-sided case — stored selection without a
selection set, incoming one with — merging fails with an attribute error
rather than extending the stored entry. -/
theorem one_sided_merge_behavior (a1 : Option String) (n1 : String)
    (args1 : List Argument) (ds1 : List Directive) (ss1 : List Selection)
    (a2 : Option String) (n2 : String) (args2 : List Argument) (ds2 : List Directive)
    (hkey : field_key (.field a1 n1 args1 ds1 (some ss1)) =
            field_key (.field a2 n2 args2 ds2 none)) :
    merge_fields [.field a1 n1 args1 ds1 (some ss1), .field a2 n2 args2 ds2 none] =
      .ok [.field a1 n1 args1 ds1 (some ss1)] ∧
    merge_fields [.field a2 n2 args2 ds2 none, .field a1 n1 args1 ds1 (some ss1)] =
      .error (.attributeError "selections") := by
  constructor
  · simp [merge_fields, mergeLoop, mergeStep, Selection.selectionSet, hkey,
      except_bind_ok]
  · simp [merge_fields, mergeLoop, mergeStep, Selection.selectionSet, hkey,
      updateStored, except_bind_ok, except_bind_error]

/-- C6 witness: the amended behavior at a concrete input, `a {b}` merged with
a leaf `a` and the two in the opposite order. -/
theorem one_sided_merge_behavior_witness :
    merge_fields [fieldWith "a" [leafField "b"], leafField "a"] =
      .ok [fieldWith "a" [leafField "b"]] ∧
    merge_fields [leafField "a", fieldWith "a" [leafField "b"]] =
      .error (.attributeError "selections") :=
  one_sided_merge_behavior none "a" [] [] [leafField "b"] none "a" [] [] rfl

/-- C8 counterexample: a selection carrying the unrecognized directive `frob`
after `skip(if: true)` is excluded without any error, because the directive
walk returns at the first excluding directive before reaching `frob`. -/
theorem unknown_directive_short_circuit_counterexample :
    should_include_node [⟨"skip", [⟨"if", .boolean true⟩]⟩, ⟨"frob", []⟩] [] =
      .ok false := rfl

/-- C5: over recognized directives, a selection is excluded exactly when some
`skip` directive's `if` argument resolves to `true` or some `include`
directive's `if` argument resolves to `false`; the directives combine by
logical conjunction of their inclusion verdicts. -/
theorem directive_evaluation (ds : List Directive) (vars : List (String × GValue))
    (h : ∀ d ∈ ds, d.name = "skip" ∨ d.name = "include") :
    should_include_node ds vars = .ok (!(ds.any (excludesDirective vars))) := by
  induction ds with
  | nil => rfl
  | cons d rest ih =>
    have hrest : ∀ d' ∈ rest, d'.name = "skip" ∨ d'.name = "include" :=
      fun d' hd' => h d' (List.mem_cons_of_mem _ hd')
    rcases h d (List.mem_cons_self _ _) with hskip | hincl
    · by_cases hx : resolveIfArgument d.arguments vars = some (.boolean true)
      · simp [should_include_node, hskip, excludesDirective, hx]
      · simp [should_include_node, hskip, excludesDirective, hx, ih hrest]
    · have hnotskip : d.name ≠ "skip" := by simp [hincl]
      by_cases hx : resolveIfArgument d.arguments vars = some (.boolean false)
      · simp [should_include_node, hincl, hnotskip, excludesDirective, hx]
      · simp [should_include_node, hincl, hnotskip, excludesDirective, hx, ih hrest]

/-- C5 witness: `@skip(if: $x)` with `x = true` evaluates to exclusion, with
`x = false` to inclusion, and with the `if` argument omitted to inclusion;
compiling `{a @skip(if: $x)}` accordingly yields no request for the field,
one request, and one request. -/
theorem directive_evaluation_witness :
    should_include_node [⟨"skip", [⟨"if", .var "x"⟩]⟩] [("x", .boolean true)] =
      .ok false ∧
    should_include_node [⟨"skip", [⟨"if", .var "x"⟩]⟩] [("x", .boolean false)] =
      .ok true ∧
    should_include_node [⟨"skip", []⟩] [] = .ok true ∧
    request_from_graphql_document 1 skipVarDocument abRoot abRoot [("x", .boolean true)] =
      .ok ⟨.mk none none [] (some []) [], none⟩ ∧
    request_from_graphql_document 1 skipVarDocument abRoot abRoot [("x", .boolean false)] =
      .ok ⟨.mk none none []
        (some [.mk (some "a") (some leafDescriptor) [] none []]) [], none⟩ ∧
    request_from_graphql_document 1 skipBareDocument abRoot abRoot [] =
      .ok ⟨.mk none none []
        (some [.mk (some "a") (some leafDescriptor) [] none []]) [], none⟩ :=
  ⟨directive_evaluation [⟨"skip", [⟨"if", .var "x"⟩]⟩] [("x", .boolean true)]
      (by simp),
   directive_evaluation [⟨"skip", [⟨"if", .var "x"⟩]⟩] [("x", .boolean false)]
      (by simp),
   directive_evaluation [⟨"skip", []⟩] [] (by simp),
   rfl, rfl, rfl⟩

/-- Duplicating a leaf field selection changes neither collection, merging nor
the compiled children: the second occurrence of its key is a no-op. -/
theorem graphql_selections_duplicate_leaf (fragments : List (String × String × List Selection))
    (vars : List (String × GValue)) (fuel : Nat) (root : Option TypeDescriptor)
    (aliasName : Option String) (n : String) (args : List Argument) (ds : List Directive) :
    graphql_selections fragments vars fuel
        (some [.field aliasName n args ds none, .field aliasName n args ds none]) root =
      graphql_selections fragments vars fuel (some [.field aliasName n args ds none]) root := by
  cases fuel with
  | zero => rfl
  | succ f =>
    cases root with
    | none => rfl
    | some r =>
      simp only [graphql_selections, rootFields, except_bind_ok, collect_fields,
        expandList, add_fields, Selection.directives]
      cases hinc : should_include_node ds vars with
      | error e => simp [except_bind_error]
      | ok b =>
        cases b with
        | false => simp [except_bind_ok, except_pure_def]
        | true =>
          simp [except_bind_ok, except_pure_def, merge_fields, mergeLoop, mergeStep,
            Selection.selectionSet]

/-- C4: compiling `{s s}` for a leaf field selection `s` gives exactly the
same result as compiling `{s}`: the repeated identical leaf selection under
the already-present output key is an idempotent no-op. -/
theorem duplicate_leaf_selection_idempotent (fuel : Nat) (t : String)
    (aliasName : Option String) (n : String) (args : List Argument)
    (ds : List Directive) (qr mr : TypeDescriptor) (vars : List (String × GValue)) :
    request_from_graphql_document fuel
        ⟨[.operation t [.field aliasName n args ds none, .field aliasName n args ds none]]⟩
        qr mr vars =
      request_from_graphql_document fuel
        ⟨[.operation t [.field aliasName n args ds none]]⟩ qr mr vars := by
  simp only [request_from_graphql_document, single_operation, singleOf,
    operation_definitions, enumerateFrom,
    fragment_table, List.filterMap, except_bind_ok, find_schema_selection, field_name]
  by_cases hn : n == "__schema" <;>
    simp [hn, except_bind_ok, graphql_selections_duplicate_leaf]

/-- The in-place extension step leaves the stored keys and their order
untouched. -/
theorem updateStored_keys (merged : List Selection) (k : String)
    (newSels : List Selection) (out : List Selection)
    (h : updateStored merged k newSels = .ok out) :
    out.map field_key = merged.map field_key := by
  induction merged generalizing out with
  | nil =>
    simp only [updateStored, Except.ok.injEq] at h
    rw [← h]
  | cons t rest ih =>
    by_cases ht : field_key t == k
    · simp only [updateStored, ht, if_pos] at h
      cases hss : t.selectionSet with
      | none => rw [hss] at h; cases h
      | some old =>
        rw [hss] at h
        simp only [Except.ok.injEq] at h
        simp [← h, field_key_setSelectionSet]
    · simp only [updateStored, ht, Bool.false_eq_true, if_false] at h
      cases hrec : updateStored rest k newSels with
      | error e => rw [hrec] at h; cases h
      | ok rest2 =>
        rw [hrec, except_bind_ok] at h
        simp only [Except.ok.injEq] at h
        simp [← h, ih rest2 hrec]

/-- Unfolding equation of `firstSeenFrom` on a cons cell. -/
theorem firstSeenFrom_cons (seen : List String) (k : String) (ks : List String) :
    firstSeenFrom seen (k :: ks) =
      if seen.contains k then firstSeenFrom seen ks
      else k :: firstSeenFrom (seen ++ [k]) ks := rfl

/-- One merge step appends the key of a new selection and leaves the keys
unchanged for an already-present one. -/
theorem mergeStep_keys (merged : List Selection) (s : Selection) (out : List Selection)
    (h : mergeStep merged s = .ok out) :
    out.map field_key =
      if (merged.map field_key).contains (field_key s) then merged.map field_key
      else merged.map field_key ++ [field_key s] := by
  by_cases hc : (merged.map field_key).contains (field_key s)
  · rw [if_pos hc]
    simp only [mergeStep, hc, if_pos] at h
    cases hss : s.selectionSet with
    | none =>
      rw [hss] at h
      simp only [Except.ok.injEq] at h
      rw [← h]
    | some newSels =>
      rw [hss] at h
      exact updateStored_keys merged (field_key s) newSels out h
  · rw [if_neg hc]
    simp only [mergeStep] at h
    rw [if_neg hc] at h
    simp only [Except.ok.injEq] at h
    rw [← h, List.map_append]
    rfl

/-- The merge loop emits the keys already merged followed by the unseen keys
of the remaining selections in first-seen order. -/
theorem mergeLoop_keys (sels : List Selection) (merged out : List Selection)
    (h : mergeLoop merged sels = .ok out) :
    out.map field_key =
      merged.map field_key ++ firstSeenFrom (merged.map field_key) (sels.map field_key) := by
  induction sels generalizing merged with
  | nil =>
    simp only [mergeLoop, Except.ok.injEq] at h
    simp [← h, firstSeenFrom]
  | cons s rest ih =>
    simp only [mergeLoop] at h
    cases hstep : mergeStep merged s with
    | error e => rw [hstep] at h; cases h
    | ok m2 =>
      rw [hstep, except_bind_ok] at h
      have hkeys := mergeStep_keys merged s m2 hstep
      by_cases hc : (merged.map field_key).contains (field_key s)
      · rw [if_pos hc] at hkeys
        rw [List.map_cons, firstSeenFrom_cons, if_pos hc, ih m2 h, hkeys]
      · rw [if_neg hc] at hkeys
        rw [List.map_cons, firstSeenFrom_cons, if_neg hc, ih m2 h, hkeys,
          List.append_assoc, List.singleton_append]

/-- C3: merging preserves first-seen order: the merged output maps each
output key to one field, the keys appearing in the order of their first
occurrence among the expanded field selections. -/
theorem merge_preserves_first_seen_order (sels merged : List Selection)
    (h : merge_fields sels = .ok merged) :
    merged.map field_key = firstSeenFrom [] (sels.map field_key) := by
  simpa using mergeLoop_keys sels [] merged h

/-- C3 witness: the `{b a b}` example: merging keeps one field per key in
first-seen order `[b, a]`, and compiling the document yields its children in
that order. -/
theorem merge_preserves_first_seen_order_witness :
    merge_fields [leafField "b", leafField "a", leafField "b"] =
      .ok [leafField "b", leafField "a"] ∧
    [leafField "b", leafField "a"].map field_key =
      firstSeenFrom [] ([leafField "b", leafField "a", leafField "b"].map field_key) ∧
    request_from_graphql_document 1 babDocument abRoot abRoot [] =
      .ok ⟨.mk none none [] (some
        [.mk (some "b") (some leafDescriptor) [] none [],
         .mk (some "a") (some leafDescriptor) [] none []]) [], none⟩ :=
  ⟨rfl, merge_preserves_first_seen_order _ _ rfl, rfl⟩

/-- C8 (amended): an undefined fragment spread that expansion reaches — its
own directives neither excluding nor faulting it — makes expansion fail with
the unknown-fragment error; a directive whose name is neither `skip` nor
`include` makes evaluation fail with the unknown-directive error when the
directive walk reaches it, that is, when no earlier directive on the same
selection has already excluded the selection. -/
theorem unknown_names_error_when_reached :
    (∀ (fragments : List (String × String × List Selection))
       (vars : List (String × GValue)) (fuel : Nat) (name : String)
       (dsS : List Directive) (rest : List Selection),
       should_include_node dsS vars = .ok true →
       dict_lookup fragments name = none →
       collect_fields fragments vars fuel (.fragmentSpread name dsS :: rest) =
         .error (.unknownFragment name)) ∧
    (∀ (ds1 : List Directive) (d : Directive) (ds2 : List Directive)
       (vars : List (String × GValue)),
       (∀ d' ∈ ds1, (d'.name = "skip" ∨ d'.name = "include") ∧
         excludesDirective vars d' = false) →
       d.name ≠ "skip" → d.name ≠ "include" →
       should_include_node (ds1 ++ d :: ds2) vars =
         .error (.unknownDirective d.name)) := by
  constructor
  · intro fragments vars fuel name dsS rest hinc hlook
    simp [collect_fields, expandList, add_fields, Selection.directives, hinc,
      except_bind_ok, hlook, except_bind_error]
  · intro ds1 d ds2 vars h1 h2 h3
    induction ds1 with
    | nil => simp [should_include_node, h2, h3]
    | cons d' rest ih =>
      have hd' := h1 d' (List.mem_cons_self _ _)
      have hrest : ∀ d'' ∈ rest, (d''.name = "skip" ∨ d''.name = "include") ∧
          excludesDirective vars d'' = false :=
        fun d'' hd'' => h1 d'' (List.mem_cons_of_mem _ hd'')
      rcases hd'.1 with hskip | hincl
      · have hx : ¬ resolveIfArgument d'.arguments vars = some (.boolean true) := by
          have := hd'.2
          simp [excludesDirective, hskip] at this
          simpa using this
        simp [should_include_node, hskip, hx, ih hrest]
      · have hnotskip : d'.name ≠ "skip" := by simp [hincl]
        have hx : ¬ resolveIfArgument d'.arguments vars = some (.boolean false) := by
          have := hd'.2
          simp [excludesDirective, hincl] at this
          simpa using this
        simp [should_include_node, hincl, hnotskip, hx, ih hrest]

/-- C8 witness: expanding `{...F}` with an undefined `F` fails with the
unknown-fragment error, and `a @include(if: true) @frob` fails with the
unknown-directive error for `frob` since the recognized `include` before it
does not exclude the selection. -/
theorem unknown_names_error_when_reached_witness :
    collect_fields [] [] 3 [.fragmentSpread "F" []] = .error (.unknownFragment "F") ∧
    should_include_node [⟨"include", [⟨"if", .boolean true⟩]⟩, ⟨"frob", []⟩] [] =
      .error (.unknownDirective "frob") :=
  ⟨unknown_names_error_when_reached.1 [] [] 3 "F" [] [] rfl rfl,
   unknown_names_error_when_reached.2 [⟨"include", [⟨"if", .boolean true⟩]⟩]
     ⟨"frob", []⟩ [] [] (by simp [excludesDirective, resolveIfArgument])
     (by simp) (by simp)⟩

/-- Compiling a leaf field next to a spread of a fragment holding that same
leaf field equals compiling the leaf field alone, whatever the fragment's
name and type condition and whatever fragment table the right-hand side
carries. -/
theorem graphql_selections_fragment_splice (vars : List (String × GValue)) (fuel : Nat)
    (root : Option TypeDescriptor) (fragments2 : List (String × String × List Selection))
    (aliasName : Option String) (n : String) (args : List Argument) (ds : List Directive)
    (fragName tc : String) :
    graphql_selections [(fragName, (tc, [.field aliasName n args ds none]))] vars (fuel + 1)
        (some [.field aliasName n args ds none, .fragmentSpread fragName []]) root =
      graphql_selections fragments2 vars (fuel + 1)
        (some [.field aliasName n args ds none]) root := by
  cases root with
  | none => simp [graphql_selections, rootFields, except_bind_error]
  | some r =>
    simp only [graphql_selections, rootFields, except_bind_ok, collect_fields, expandList,
      add_fields, Selection.directives]
    cases hinc : should_include_node ds vars with
    | error e => simp [except_bind_error]
    | ok b =>
      cases b with
      | false =>
        simp [hinc, should_include_node, dict_lookup, merge_fields, mergeLoop,
          mergeStep, Selection.selectionSet, Selection.directives, Selection.argumentsOf,
          exceptMap, except_bind_ok, except_pure_def,
          field_name, field_key, expandList, add_fields]
      | true =>
        by_cases hn : n == "__schema"
        · simp [hinc, hn, should_include_node, dict_lookup, merge_fields, mergeLoop,
            mergeStep, Selection.selectionSet, Selection.directives, Selection.argumentsOf,
            exceptMap, except_bind_ok, except_pure_def,
            field_name, field_key, expandList, add_fields, List.filter]
        · cases hfd : fieldsLookup r.fields n with
          | error e =>
            simp [hinc, hn, hfd, should_include_node, dict_lookup, merge_fields, mergeLoop,
              mergeStep, Selection.selectionSet, Selection.directives, Selection.argumentsOf,
              exceptMap, except_bind_ok, except_bind_error,
              except_pure_def, field_name, field_key, expandList, add_fields, List.filter,
              graphql_selections]
          | ok fd =>
            simp [hinc, hn, hfd, should_include_node, dict_lookup, merge_fields, mergeLoop,
              mergeStep, Selection.selectionSet, Selection.directives, Selection.argumentsOf,
              exceptMap, except_bind_ok, except_bind_error,
              except_pure_def, field_name, field_key, expandList, add_fields, List.filter,
              graphql_selections]

/-- The query component of a compiled document request does not depend on the
introspection sub-document placed next to it. -/
theorem map_query_mk (g : Except CompileError (Option (List Request)))
    (sqA sqB : Option Document) :
    Except.map DocumentRequest.query
      (g >>= fun selections => Except.ok ⟨Request.mk none none [] selections [], sqA⟩) =
    Except.map DocumentRequest.query
      (g >>= fun selections => Except.ok ⟨Request.mk none none [] selections [], sqB⟩) := by
  cases g <;> rfl

/-- C7: fragment expansion splices the fragment's fields in place regardless
of its type condition: compiling `{s ...F}` with `fragment F { s }` for a
leaf field `s` yields the same main request tree as compiling `{s}`, and the
concrete `{a ...F} fragment F on T {a}` compiles to a single request for
`a`. -/
theorem fragment_transparency (fuel : Nat) (t : String) (aliasName : Option String)
    (n : String) (args : List Argument) (ds : List Directive) (fragName tc : String)
    (qr mr : TypeDescriptor) (vars : List (String × GValue)) :
    Except.map DocumentRequest.query
        (request_from_graphql_document (fuel + 1)
          ⟨[.operation t [.field aliasName n args ds none, .fragmentSpread fragName []],
            .fragmentDefinition fragName tc [.field aliasName n args ds none]]⟩
          qr mr vars) =
      Except.map DocumentRequest.query
        (request_from_graphql_document (fuel + 1)
          ⟨[.operation t [.field aliasName n args ds none]]⟩ qr mr vars) ∧
    request_from_graphql_document 1 fragmentDocument abRoot abRoot [] =
      .ok ⟨.mk none none []
        (some [.mk (some "a") (some leafDescriptor) [] none []]) [], none⟩ := by
  refine ⟨?_, rfl⟩
  have hsp := graphql_selections_fragment_splice vars fuel
    (some (if (t == "mutation") = true then mr else qr)) [] aliasName n args ds fragName tc
  simp only [request_from_graphql_document, single_operation, singleOf,
    operation_definitions, enumerateFrom,
    fragment_table, List.filterMap, except_bind_ok, find_schema_selection, field_name]
  by_cases hn : n == "__schema"
  · simp only [hn, if_true, except_bind_ok]
    rw [hsp]
    exact map_query_mk _ _ _
  · by_cases hf : fragName == "__schema"
    · simp only [hn, hf, if_true, Bool.false_eq_true, if_false, except_bind_ok]
      rw [hsp]
      exact map_query_mk _ _ _
    · simp only [hn, hf, Bool.false_eq_true, if_false, except_bind_ok]
      rw [hsp]

/-- A key is absent from an association list exactly when no entry carries
it. -/
theorem lookup_eq_none_iff {α : Type} (l : List (String × α)) (k : String) :
    l.lookup k = none ↔ ∀ p ∈ l, p.1 ≠ k := by
  induction l with
  | nil => simp [List.lookup]
  | cons p rest ih =>
    obtain ⟨a, b⟩ := p
    by_cases hak : k = a
    · subst hak
      simp [List.lookup]
    · have hba : (k == a) = false := beq_false_of_ne hak
      simp [List.lookup, hba, ih, Ne.symm hak]

/-- A key is absent from a Python-style dict exactly when no entry carries
it. -/
theorem dict_lookup_eq_none_iff {α : Type} (l : List (String × α)) (k : String) :
    dict_lookup l k = none ↔ ∀ p ∈ l, p.1 ≠ k := by
  rw [dict_lookup, lookup_eq_none_iff]
  constructor
  · intro h p hp
    exact h p (List.mem_reverse.mpr hp)
  · intro h p hp
    exact h p (List.mem_reverse.mp hp)

/-- C9: a merged non-introspection field selection whose name is absent from
the target type's registry makes tree building fail with the unknown-field
error; a name present in the registry yields a child request carrying that
descriptor whose sub-requests are compiled against the descriptor's target
type; and a name is absent from the registry exactly when every field entry
carrying it is marked internal, so internal fields selected directly fail
with the unknown-field error. -/
theorem unknown_field_and_target_recursion :
    (∀ (fragments : List (String × String × List Selection)) (vars : List (String × GValue))
       (fuel : Nat) (r : TypeDescriptor) (aliasName : Option String) (n : String)
       (args : List Argument) (ss : Option (List Selection)),
       n ≠ "__schema" →
       dict_lookup r.fields n = none →
       graphql_selections fragments vars (fuel + 1)
           (some [.field aliasName n args [] ss]) (some r) =
         .error (.unknownField n)) ∧
    (∀ (fragments : List (String × String × List Selection)) (vars : List (String × GValue))
       (fuel : Nat) (r : TypeDescriptor) (aliasName : Option String) (n : String)
       (args : List Argument) (ss : Option (List Selection)) (fd : FieldDescriptor),
       n ≠ "__schema" →
       dict_lookup r.fields n = some fd →
       graphql_selections fragments vars (fuel + 1)
           (some [.field aliasName n args [] ss]) (some r) =
         Except.map (fun subs => some [Request.mk (some (aliasName.getD n)) (some fd)
             (bindArguments args vars) subs []])
           (graphql_selections fragments vars fuel ss fd.target)) ∧
    (∀ (td : TypeDescriptor) (n : String),
       dict_lookup td.fields n = none ↔
         ∀ e ∈ td.allFields, e.name = n → e.internalField = true) := by
  refine ⟨?_, ?_, ?_⟩
  · intro fragments vars fuel r aliasName n args ss hn hlook
    have hn' : (n == "__schema") = false := beq_false_of_ne hn
    simp [graphql_selections, rootFields, collect_fields, expandList, add_fields,
      Selection.directives, Selection.selectionSet, should_include_node, merge_fields,
      mergeLoop, mergeStep, exceptMap, fieldsLookup, field_name, field_key, List.filter,
      hn', hlook, except_bind_ok, except_bind_error, except_pure_def]
  · intro fragments vars fuel r aliasName n args ss fd hn hlook
    have hn' : (n == "__schema") = false := beq_false_of_ne hn
    cases hg : graphql_selections fragments vars fuel ss fd.target <;>
      simp [graphql_selections, rootFields, collect_fields, expandList, add_fields,
        Selection.directives, Selection.selectionSet, Selection.argumentsOf,
        should_include_node, merge_fields, mergeLoop, mergeStep, exceptMap, fieldsLookup,
        field_name, field_key, List.filter, hn', hlook, hg, except_bind_ok,
        except_bind_error, except_pure_def, Except.map]
  · intro td n
    rw [dict_lookup_eq_none_iff]
    constructor
    · intro h e he hname
      by_contra hint
      refine h (e.name, e.descriptor) ?_ hname
      simp only [TypeDescriptor.fields, List.mem_map]
      refine ⟨e, List.mem_filter.mpr ⟨he, ?_⟩, rfl⟩
      simp [Bool.not_eq_true] at hint
      simp [hint]
    · intro h p hp hk
      simp only [TypeDescriptor.fields, List.mem_map] at hp
      obtain ⟨e, hef, hpe⟩ := hp
      obtain ⟨he, hni⟩ := List.mem_filter.mp hef
      have hen : e.name = n := by rw [← hk, ← hpe]
      have := h e he hen
      rw [this] at hni
      cases hni

/-- C9 witness: on the book type, whose `author_id` field is internal,
selecting `author_id` directly fails with the unknown-field error, while on
the `a`/`b` root selecting `a` yields a child request carrying the field's
descriptor. -/
theorem unknown_field_and_target_recursion_witness :
    graphql_selections [] [] 1 (some [leafField "author_id"]) (some bookType) =
      .error (.unknownField "author_id") ∧
    graphql_selections [] [] 1 (some [leafField "a"]) (some abRoot) =
      Except.map (fun subs => some [Request.mk (some "a") (some leafDescriptor) [] subs []])
        (graphql_selections [] [] 0 none leafDescriptor.target) ∧
    (dict_lookup bookType.fields "author_id" = none ↔
      ∀ e ∈ bookType.allFields, e.name = "author_id" → e.internalField = true) :=
  ⟨unknown_field_and_target_recursion.1 [] [] 0 bookType none "author_id" [] none
      (by decide) rfl,
   unknown_field_and_target_recursion.2.1 [] [] 0 abRoot none "a" [] none leafDescriptor
      (by decide) rfl,
   unknown_field_and_target_recursion.2.2 bookType "author_id"⟩

/-- When every element of an except-valued map yields a request keyed by the
selection's output key, the collected requests carry exactly those keys in
order. -/
theorem exceptMap_keys (f : Selection → Except CompileError Request)
    (hf : ∀ s r, f s = .ok r → r.key = some (field_key s)) :
    ∀ (l : List Selection) (reqs : List Request), exceptMap f l = .ok reqs →
      reqs.map Request.key = l.map (fun s => some (field_key s)) := by
  intro l
  induction l with
  | nil =>
    intro reqs h
    simp only [exceptMap, Except.ok.injEq] at h
    rw [← h]
    rfl
  | cons s rest ih =>
    intro reqs h
    simp only [exceptMap] at h
    cases hs : f s with
    | error e => rw [hs] at h; cases h
    | ok r =>
      rw [hs, except_bind_ok] at h
      cases hrest : exceptMap f rest with
      | error e => rw [hrest] at h; cases h
      | ok rs =>
        rw [hrest, except_bind_ok] at h
        simp only [Except.ok.injEq] at h
        rw [← h, List.map_cons, List.map_cons, hf s r hs, ih rs hrest]

/-- A selection list with no inline fragment and no selection named
`__schema` makes the introspection search come back empty. -/
theorem find_schema_selection_eq_none (sels : List Selection)
    (h : ∀ s ∈ sels, notInline s = true ∧ field_name s ≠ "__schema") :
    find_schema_selection sels = .ok none := by
  induction sels with
  | nil => rfl
  | cons s rest ih =>
    have hs := h s (List.mem_cons_self _ _)
    have hrest : ∀ s' ∈ rest, notInline s' = true ∧ field_name s' ≠ "__schema" :=
      fun s' hs' => h s' (List.mem_cons_of_mem _ hs')
    cases s with
    | field a n args ds ss =>
      have hname : (n == "__schema") = false := beq_false_of_ne hs.2
      simp [find_schema_selection, field_name, hname, ih hrest]
    | fragmentSpread n ds =>
      have hname : (n == "__schema") = false := beq_false_of_ne hs.2
      simp [find_schema_selection, field_name, hname, ih hrest]
    | inlineFragment tc ds ss => simp [notInline] at hs

/-- C10: a field selection named `__schema` is dropped from the request tree
at every nesting depth — on success, the children's keys at any level are the
keys of the merged selections not named `__schema` — while the secondary
introspection document arises only from the top level: an operation whose
top-level selections are fields or spreads not named `__schema` compiles, on
success, to a document request with no secondary document, whatever nested
`__schema` selections it holds; concretely, `{a {__schema}}` compiles to one
child `a` with no grandchildren and no secondary document. -/
theorem schema_meta_field_dropped_at_depth :
    (∀ (fragments : List (String × String × List Selection)) (vars : List (String × GValue))
       (fuel : Nat) (sels : List Selection) (root : Option TypeDescriptor)
       (reqs : List Request),
       graphql_selections fragments vars fuel (some sels) root = .ok (some reqs) →
       ∃ collected merged,
         collect_fields fragments vars fuel sels = .ok collected ∧
         merge_fields collected = .ok merged ∧
         reqs.map Request.key =
           (merged.filter (fun s => !(field_name s == "__schema"))).map
             (fun s => some (field_key s))) ∧
    (∀ (fuel : Nat) (t : String) (sels : List Selection) (qr mr : TypeDescriptor)
       (vars : List (String × GValue)) (dr : DocumentRequest),
       (∀ s ∈ sels, notInline s = true ∧ field_name s ≠ "__schema") →
       request_from_graphql_document fuel ⟨[.operation t sels]⟩ qr mr vars = .ok dr →
       dr.schema_query = none) ∧
    request_from_graphql_document 2 nestedSchemaDocument nestedRoot nestedRoot [] =
      .ok ⟨.mk none none []
        (some [.mk (some "a") (some (.mk (some (.mk [.mk "x" false leafDescriptor]))))
          [] (some []) []]) [], none⟩ := by
  refine ⟨?_, ?_, rfl⟩
  · intro fragments vars fuel sels root reqs h
    cases fuel with
    | zero => cases h
    | succ f =>
      simp only [graphql_selections] at h
      cases hrf : rootFields root with
      | error e => rw [hrf] at h; cases h
      | ok fields =>
        rw [hrf, except_bind_ok] at h
        cases hcol : collect_fields fragments vars (f + 1) sels with
        | error e => rw [hcol] at h; cases h
        | ok collected =>
          rw [hcol, except_bind_ok] at h
          cases hmer : merge_fields collected with
          | error e => rw [hmer] at h; cases h
          | ok merged =>
            rw [hmer, except_bind_ok] at h
            refine ⟨collected, merged, rfl, hmer, ?_⟩
            cases hmap : exceptMap (fun s => do
                let fd ← fieldsLookup fields (field_name s)
                let subs ← graphql_selections fragments vars f s.selectionSet fd.target
                Except.ok (Request.mk (some (field_key s)) (some fd)
                  (bindArguments s.argumentsOf vars) subs []))
              (merged.filter (fun s => !(field_name s == "__schema"))) with
            | error e => rw [hmap] at h; cases h
            | ok children =>
              rw [hmap, except_bind_ok] at h
              simp only [Except.ok.injEq, Option.some.injEq] at h
              rw [← h]
              refine exceptMap_keys _ ?_ _ _ hmap
              intro s r hr
              cases hfd : fieldsLookup fields (field_name s) with
              | error e => rw [hfd] at hr; cases hr
              | ok fd =>
                rw [hfd, except_bind_ok] at hr
                cases hg : graphql_selections fragments vars f s.selectionSet fd.target with
                | error e => rw [hg] at hr; cases hr
                | ok subs =>
                  rw [hg, except_bind_ok] at hr
                  simp only [Except.ok.injEq] at hr
                  rw [← hr]
                  rfl
  · intro fuel t sels qr mr vars dr hsel hcomp
    simp only [request_from_graphql_document, single_operation, singleOf,
      operation_definitions, enumerateFrom,
      List.filterMap, fragment_table, except_bind_ok] at hcomp
    rw [find_schema_selection_eq_none sels hsel, except_bind_ok] at hcomp
    cases hg : graphql_selections [] vars fuel (some sels)
        (some (if (t == "mutation") = true then mr else qr)) with
    | error e => rw [hg] at hcomp; cases hcomp
    | ok sel =>
      rw [hg, except_bind_ok] at hcomp
      simp only [Except.ok.injEq] at hcomp
      rw [← hcomp]

/-- C10 witness: at depth one, `{__schema b}` against the `a`/`b` root yields
only the child `b` (the merged `__schema` selection producing no key), and
the whole-document part applied to `{a {__schema}}` shows its compiled
result carries no secondary document. -/
theorem schema_meta_field_dropped_at_depth_witness :
    (∃ collected merged,
      collect_fields [] [] 1 [leafField "__schema", leafField "b"] = .ok collected ∧
      merge_fields collected = .ok merged ∧
      [Request.mk (some "b") (some leafDescriptor) [] none []].map Request.key =
        (merged.filter (fun s => !(field_name s == "__schema"))).map
          (fun s => some (field_key s))) ∧
    DocumentRequest.schema_query
      ⟨.mk none none []
        (some [.mk (some "a") (some (.mk (some (.mk [.mk "x" false leafDescriptor]))))
          [] (some []) []]) [], none⟩ = none :=
  ⟨schema_meta_field_dropped_at_depth.1 [] [] 1 [leafField "__schema", leafField "b"]
      (some abRoot) [Request.mk (some "b") (some leafDescriptor) [] none []] rfl,
   schema_meta_field_dropped_at_depth.2.1 2 "query" [fieldWith "a" [leafField "__schema"]]
      nestedRoot nestedRoot [] _ (by decide) rfl⟩

/-- The operations picked out of the enumerated definitions are, indices
dropped, the operations of the definition list. -/
theorem operation_definitions_snd (defs : List Definition) :
    ∀ i : Nat, ((enumerateFrom i defs).filterMap (fun p =>
      match p.2 with
      | Definition.operation t ss => some (p.1, (t, ss))
      | _ => none)).map Prod.snd = operationsOf defs := by
  induction defs with
  | nil => intro i; rfl
  | cons d rest ih =>
    intro i
    cases d with
    | operation t ss =>
      have hrest := ih (i + 1)
      simp only [operationsOf] at hrest ⊢
      simp [enumerateFrom, List.filterMap_cons, hrest]
    | fragmentDefinition nm tc ss =>
      have hrest := ih (i + 1)
      simp only [operationsOf] at hrest ⊢
      simp [enumerateFrom, List.filterMap_cons, hrest]

/-- A document with no operation definition fails with the no-operation
error. -/
theorem single_operation_no_ops (defs : List Definition)
    (h : operationsOf defs = []) : single_operation defs = .error .noOperation := by
  have hmap := operation_definitions_snd defs 0
  rw [h] at hmap
  have hnil := List.map_eq_nil_iff.mp hmap
  rw [single_operation, operation_definitions, hnil]
  rfl

/-- A document with at least two operation definitions fails with the
multiple-operations error. -/
theorem single_operation_two_ops (defs : List Definition)
    (x y : String × List Selection) (rest : List (String × List Selection))
    (h : operationsOf defs = x :: y :: rest) :
    single_operation defs = .error .multipleOperations := by
  have hmap := operation_definitions_snd defs 0
  rw [h] at hmap
  rw [single_operation, operation_definitions]
  cases hL : (enumerateFrom 0 defs).filterMap (fun p =>
      match p.2 with
      | Definition.operation t ss => some (p.1, (t, ss))
      | _ => none) with
  | nil => rw [hL] at hmap; cases hmap
  | cons a L2 =>
    cases L2 with
    | nil => rw [hL] at hmap; simp at hmap
    | cons b L3 => rfl

/-- A document whose head definition is the only operation compiles that
operation at index zero. -/
theorem single_operation_cons_op (t : String) (sels : List Selection)
    (rest : List Definition) (h : operationsOf rest = []) :
    single_operation (Definition.operation t sels :: rest) = .ok (0, t, sels) := by
  have hmap := operation_definitions_snd rest 1
  rw [h] at hmap
  have hnil := List.map_eq_nil_iff.mp hmap
  rw [single_operation, operation_definitions, enumerateFrom, List.filterMap_cons]
  simp only [hnil]
  rfl

/-- C2 counterexample: the document `{...F}` with no fragment definitions has
exactly one operation, no field names and no directives — every field name
trivially resolves and every directive is trivially recognized — yet
compilation fails (with the unknown-fragment error), refuting the claimed
equivalence. -/
theorem compile_success_iff_counterexample :
    request_from_graphql_document 3 ⟨[.operation "query" [.fragmentSpread "F" []]]⟩
      abRoot abRoot [] = .error (.unknownFragment "F") := rfl

/-- C2 (amended): compilation requires exactly one operation definition,
failing with the no-operation / multiple-operations error otherwise; given
one operation, compilation fails with the matching structured error kind at
the first faulty selection it processes: an unrecognized leading directive
gives the unknown-directive error, a field name that does not resolve in the
root's registry gives the unknown-field error, and a spread of an undefined
fragment gives the unknown-fragment error; each failure is the whole
compilation's result, so no partial tree accompanies it. -/
theorem compile_error_kinds :
    (∀ (fuel : Nat) (defs : List Definition) (qr mr : TypeDescriptor)
       (vars : List (String × GValue)),
       operationsOf defs = [] →
       request_from_graphql_document fuel ⟨defs⟩ qr mr vars = .error .noOperation) ∧
    (∀ (fuel : Nat) (defs : List Definition) (qr mr : TypeDescriptor)
       (vars : List (String × GValue)) (x y : String × List Selection)
       (rest : List (String × List Selection)),
       operationsOf defs = x :: y :: rest →
       request_from_graphql_document fuel ⟨defs⟩ qr mr vars =
         .error .multipleOperations) ∧
    (∀ (fuel : Nat) (t : String) (aliasName : Option String) (n : String)
       (args : List Argument) (d : Directive) (ds : List Directive)
       (ss : Option (List Selection)) (qr mr : TypeDescriptor)
       (vars : List (String × GValue)),
       d.name ≠ "skip" → d.name ≠ "include" →
       request_from_graphql_document (fuel + 1)
           ⟨[.operation t [.field aliasName n args (d :: ds) ss]]⟩ qr mr vars =
         .error (.unknownDirective d.name)) ∧
    (∀ (fuel : Nat) (t : String) (aliasName : Option String) (n : String)
       (args : List Argument) (ss : Option (List Selection)) (qr mr : TypeDescriptor)
       (vars : List (String × GValue)),
       n ≠ "__schema" →
       dict_lookup (if t = "mutation" then mr else qr).fields n = none →
       request_from_graphql_document (fuel + 1)
           ⟨[.operation t [.field aliasName n args [] ss]]⟩ qr mr vars =
         .error (.unknownField n)) ∧
    (∀ (fuel : Nat) (t : String) (F : String) (rest : List Definition)
       (qr mr : TypeDescriptor) (vars : List (String × GValue)),
       operationsOf rest = [] →
       dict_lookup (fragment_table
         (Definition.operation t [.fragmentSpread F []] :: rest)) F = none →
       request_from_graphql_document (fuel + 1)
           ⟨Definition.operation t [.fragmentSpread F []] :: rest⟩ qr mr vars =
         .error (.unknownFragment F)) := by
  refine ⟨?_, ?_, ?_, ?_, ?_⟩
  · intro fuel defs qr mr vars h
    simp [request_from_graphql_document, single_operation_no_ops defs h,
      except_bind_error]
  · intro fuel defs qr mr vars x y rest h
    simp [request_from_graphql_document, single_operation_two_ops defs x y rest h,
      except_bind_error]
  · intro fuel t aliasName n args d ds ss qr mr vars h2 h3
    have h2f : (d.name == "skip") = false := beq_false_of_ne h2
    have h3f : (d.name == "include") = false := beq_false_of_ne h3
    have hs : should_include_node (d :: ds) vars = .error (.unknownDirective d.name) := by
      simp [should_include_node, h2f, h3f]
    simp only [request_from_graphql_document, single_operation, singleOf,
      operation_definitions, enumerateFrom, List.filterMap, fragment_table,
      except_bind_ok, find_schema_selection, field_name]
    by_cases hn : (n == "__schema") <;>
      simp [hn, except_bind_ok, except_bind_error, graphql_selections, rootFields,
        collect_fields, expandList, add_fields, Selection.directives, hs]
  · intro fuel t aliasName n args ss qr mr vars hn hlook
    have hnf : (n == "__schema") = false := beq_false_of_ne hn
    simp only [request_from_graphql_document, single_operation, singleOf,
      operation_definitions, enumerateFrom, List.filterMap, fragment_table,
      except_bind_ok, find_schema_selection, field_name, hnf, Bool.false_eq_true,
      if_false]
    simp [graphql_selections, rootFields, collect_fields, expandList, add_fields,
      Selection.directives, Selection.selectionSet, should_include_node, merge_fields,
      mergeLoop, mergeStep, exceptMap, fieldsLookup, field_name, field_key, List.filter,
      hnf, hlook, except_bind_ok, except_bind_error, except_pure_def]
  · intro fuel t F rest qr mr vars hops hlook
    simp only [request_from_graphql_document,
      single_operation_cons_op t [.fragmentSpread F []] rest hops, except_bind_ok,
      find_schema_selection, field_name]
    by_cases hF : (F == "__schema") <;>
      simp [hF, except_bind_ok, except_bind_error, graphql_selections, rootFields,
        collect_fields, expandList, add_fields, Selection.directives,
        should_include_node, hlook]

/-- C2 witness: concrete documents with zero and two operations fail with the
no-operation and multiple-operations errors, and one-operation documents with
an unknown leading directive, an unregistered field name, and an undefined
fragment spread fail with the corresponding error kinds. -/
theorem compile_error_kinds_witness :
    request_from_graphql_document 1 ⟨[]⟩ abRoot abRoot [] = .error .noOperation ∧
    request_from_graphql_document 1
      ⟨[.operation "query" [leafField "a"], .operation "query" [leafField "b"]]⟩
      abRoot abRoot [] = .error .multipleOperations ∧
    request_from_graphql_document 1
      ⟨[.operation "query" [.field none "a" [] [⟨"frob", []⟩] none]]⟩
      abRoot abRoot [] = .error (.unknownDirective "frob") ∧
    request_from_graphql_document 1 ⟨[.operation "query" [leafField "zzz"]]⟩
      abRoot abRoot [] = .error (.unknownField "zzz") ∧
    request_from_graphql_document 1 ⟨[.operation "query" [.fragmentSpread "F" []]]⟩
      abRoot abRoot [] = .error (.unknownFragment "F") :=
  ⟨compile_error_kinds.1 1 [] abRoot abRoot [] rfl,
   compile_error_kinds.2.1 1
     [.operation "query" [leafField "a"], .operation "query" [leafField "b"]]
     abRoot abRoot [] ("query", [leafField "a"]) ("query", [leafField "b"]) [] rfl,
   compile_error_kinds.2.2.1 0 "query" none "a" [] ⟨"frob", []⟩ [] none abRoot abRoot []
     (by decide) (by decide),
   compile_error_kinds.2.2.2.1 0 "query" none "zzz" [] none abRoot abRoot []
     (by decide) rfl,
   compile_error_kinds.2.2.2.2 0 "query" "F" [] abRoot abRoot [] rfl rfl⟩

/-- Enumeration distributes over append, shifting the start index. -/
theorem enumerateFrom_append {α : Type} (A B : List α) : ∀ i : Nat,
    enumerateFrom i (A ++ B) = enumerateFrom i A ++ enumerateFrom (i + A.length) B := by
  induction A with
  | nil => intro i; simp [enumerateFrom]
  | cons a A ih =>
    intro i
    have hidx : i + 1 + A.length = i + (A.length + 1) := by omega
    simp [enumerateFrom, ih (i + 1), hidx]

/-- A definition list without operations contributes nothing to the
enumerated operation list, whatever the start index. -/
theorem filterMap_operations_nil (defs : List Definition)
    (h : operationsOf defs = []) (i : Nat) :
    (enumerateFrom i defs).filterMap (fun p =>
      match p.2 with
      | Definition.operation t ss => some (p.1, (t, ss))
      | _ => none) = [] := by
  have hmap := operation_definitions_snd defs i
  rw [h] at hmap
  exact List.map_eq_nil_iff.mp hmap

/-- An operation surrounded by operation-free definitions is the single
operation, at the index given by the prefix length. -/
theorem single_operation_append (pre : List Definition) (t : String)
    (sels : List Selection) (post : List Definition)
    (hpre : operationsOf pre = []) (hpost : operationsOf post = []) :
    single_operation (pre ++ .operation t sels :: post) = .ok (pre.length, t, sels) := by
  rw [single_operation, operation_definitions, enumerateFrom_append,
    List.filterMap_append, filterMap_operations_nil pre hpre 0, enumerateFrom,
    List.filterMap_cons]
  simp only [Nat.zero_add]
  rw [filterMap_operations_nil post hpost (pre.length + 1)]
  rfl

/-- Over fields and spreads the introspection search is the first selection
named `__schema`, if any. -/
theorem find_schema_selection_fields (sels : List Selection)
    (h : ∀ s ∈ sels, notInline s = true) :
    find_schema_selection sels =
      .ok (sels.find? (fun s => field_name s == "__schema")) := by
  induction sels with
  | nil => rfl
  | cons s rest ih =>
    have hs := h s (List.mem_cons_self _ _)
    have hrest : ∀ s' ∈ rest, notInline s' = true :=
      fun s' hs' => h s' (List.mem_cons_of_mem _ hs')
    cases s with
    | inlineFragment tc ds ss => simp [notInline] at hs
    | field a n args ds ss =>
      by_cases hn : (n == "__schema")
      · simp [find_schema_selection, field_name, hn, List.find?]
      · simp [find_schema_selection, field_name, hn, List.find?, ih hrest]
    | fragmentSpread n ds =>
      by_cases hn : (n == "__schema")
      · simp [find_schema_selection, field_name, hn, List.find?]
      · simp [find_schema_selection, field_name, hn, List.find?, ih hrest]

/-- Collecting undirected field selections is the identity: nothing is
excluded and nothing is expanded. -/
theorem collect_fields_plain (fragments : List (String × String × List Selection))
    (vars : List (String × GValue)) (fuel : Nat) (sels : List Selection)
    (h : ∀ s ∈ sels, ∃ a n args ss, s = Selection.field a n args [] ss) :
    collect_fields fragments vars fuel sels = .ok sels := by
  induction sels with
  | nil => rfl
  | cons s rest ih =>
    have hrest : ∀ s' ∈ rest, ∃ a n args ss, s' = Selection.field a n args [] ss :=
      fun s' hs' => h s' (List.mem_cons_of_mem _ hs')
    obtain ⟨a, n, args, ss, rfl⟩ := h s (List.mem_cons_self _ _)
    have htail := ih hrest
    rw [collect_fields] at htail
    simp [collect_fields, expandList, add_fields, Selection.directives,
      should_include_node, except_bind_ok, htail]

/-- Merging selections with pairwise-distinct output keys appends them all in
order. -/
theorem mergeLoop_nodup (sels : List Selection) : ∀ acc : List Selection,
    ((acc ++ sels).map field_key).Nodup → mergeLoop acc sels = .ok (acc ++ sels) := by
  induction sels with
  | nil => intro acc h; simp [mergeLoop]
  | cons s rest ih =>
    intro acc h
    have hnotin : field_key s ∉ acc.map field_key := by
      intro hmem
      rw [List.map_append] at h
      rcases (List.nodup_append.mp h) with ⟨h1, h2, hdisj⟩
      exact hdisj hmem (by simp)
    have hc : ((acc.map field_key).contains (field_key s)) = false := by
      simpa using hnotin
    simp only [mergeLoop, mergeStep, hc, Bool.false_eq_true, if_false, except_bind_ok]
    have := ih (acc ++ [s]) (by simpa using h)
    simpa [List.append_assoc] using this

/-- Building children over leaf selections whose names all resolve succeeds,
producing one request per selection carrying its output key. -/
theorem exceptMap_build_leaves (fields : List (String × FieldDescriptor))
    (fragments : List (String × String × List Selection))
    (vars : List (String × GValue)) (fuel : Nat) :
    ∀ l : List Selection,
    (∀ s ∈ l, s.selectionSet = none ∧ (dict_lookup fields (field_name s)).isSome) →
    ∃ children, exceptMap (fun s => do
        let fd ← fieldsLookup fields (field_name s)
        let subs ← graphql_selections fragments vars fuel s.selectionSet fd.target
        Except.ok (Request.mk (some (field_key s)) (some fd)
          (bindArguments s.argumentsOf vars) subs []))
      l = .ok children ∧
      children.map Request.key = l.map (fun s => some (field_key s)) := by
  intro l
  induction l with
  | nil => intro h; exact ⟨[], rfl, rfl⟩
  | cons s rest ih =>
    intro h
    obtain ⟨hss, hsome⟩ := h s (List.mem_cons_self _ _)
    obtain ⟨fd, hfd⟩ := Option.isSome_iff_exists.mp hsome
    obtain ⟨children, hchil, hkeys⟩ :=
      ih (fun s' hs' => h s' (List.mem_cons_of_mem _ hs'))
    refine ⟨Request.mk (some (field_key s)) (some fd)
      (bindArguments s.argumentsOf vars) none [] :: children, ?_, ?_⟩
    · have head : (do
          let fd ← fieldsLookup fields (field_name s)
          let subs ← graphql_selections fragments vars fuel s.selectionSet fd.target
          Except.ok (Request.mk (some (field_key s)) (some fd)
            (bindArguments s.argumentsOf vars) subs [])
          : Except CompileError Request) =
          .ok (Request.mk (some (field_key s)) (some fd)
            (bindArguments s.argumentsOf vars) none []) := by
        simp [fieldsLookup, hfd, hss, except_bind_ok, graphql_selections]
      simp only [exceptMap, head, except_bind_ok, hchil]
    · simp [hkeys, Request.key]

/-- C1 counterexample: in `{__schema {x} a a}` the two occurrences of `a`
merge into one child, so the main tree's children are not "exactly the other
top-level selections" — one child stands for two selections. -/
theorem introspection_split_counterexample :
    request_from_graphql_document 2 schemaDupDocument abRoot abRoot [] =
      .ok ⟨.mk none none []
          (some [.mk (some "a") (some leafDescriptor) [] none []]) [],
        some ⟨[.operation "query" [fieldWith "__schema" [leafField "x"]]]⟩⟩ ∧
    schemaDupDocument.definitions =
      [.operation "query"
        [fieldWith "__schema" [leafField "x"], leafField "a", leafField "a"]] ∧
    ([fieldWith "__schema" [leafField "x"], leafField "a", leafField "a"].filter
      (fun s => !(field_name s == "__schema"))) = [leafField "a", leafField "a"] ∧
    [Request.mk (some "a") (some leafDescriptor) [] none []].length ≠
      [leafField "a", leafField "a"].length :=
  ⟨rfl, rfl, rfl, by decide⟩

/-- C1 (amended): for a document whose single operation sits among fragment
definitions and whose top-level selections are undirected fields with
pairwise-distinct output keys, the non-`__schema` ones being leaves that
resolve in the root registry: compilation returns a main tree with exactly
one child per non-`__schema` top-level selection, in order, keyed by those
selections' output keys, together with a secondary document equal to the
input except that the operation's selection set is reduced to the first
selection named `__schema` — the secondary document absent when no top-level
selection carries that name. -/
theorem introspection_split (fuel : Nat) (t : String) (pre post : List Definition)
    (sels : List Selection) (qr mr : TypeDescriptor) (vars : List (String × GValue))
    (hpre : operationsOf pre = []) (hpost : operationsOf post = [])
    (hplain : ∀ s ∈ sels, ∃ a n args ss, s = Selection.field a n args [] ss)
    (hkeys : (sels.map field_key).Nodup)
    (hleaf : ∀ s ∈ sels, field_name s ≠ "__schema" →
      s.selectionSet = none ∧
      (dict_lookup (if (t == "mutation") = true then mr else qr).fields
        (field_name s)).isSome) :
    ∃ children,
      request_from_graphql_document (fuel + 1)
          ⟨pre ++ .operation t sels :: post⟩ qr mr vars =
        .ok ⟨Request.mk none none [] (some children) [],
          match sels.find? (fun s => field_name s == "__schema") with
          | none => none
          | some s0 =>
            some ⟨(pre ++ Definition.operation t sels :: post).set pre.length
              (.operation t [s0])⟩⟩ ∧
      children.map Request.key =
        (sels.filter (fun s => !(field_name s == "__schema"))).map
          (fun s => some (field_key s)) := by
  have hnotinline : ∀ s ∈ sels, notInline s = true := by
    intro s hs
    obtain ⟨a, n, args, ss, rfl⟩ := hplain s hs
    rfl
  obtain ⟨children, hmap, hchildkeys⟩ :=
    exceptMap_build_leaves (if (t == "mutation") = true then mr else qr).fields
      (fragment_table (pre ++ Definition.operation t sels :: post)) vars fuel
      (sels.filter (fun s => !(field_name s == "__schema")))
      (by
        intro s hs
        obtain ⟨hmem, hpred⟩ := List.mem_filter.mp hs
        refine hleaf s hmem ?_
        intro hcontra
        rw [hcontra] at hpred
        simp at hpred)
  refine ⟨children, ?_, hchildkeys⟩
  simp only [request_from_graphql_document,
    single_operation_append pre t sels post hpre hpost, except_bind_ok,
    find_schema_selection_fields sels hnotinline, graphql_selections, rootFields,
    collect_fields_plain (fragment_table (pre ++ Definition.operation t sels :: post))
      vars (fuel + 1) sels hplain,
    merge_fields, mergeLoop_nodup sels [] (by simpa using hkeys), List.nil_append,
    hmap]

/-- C1 witness: `{__schema {x} a}` against the `a`/`b` root compiles to a
main tree with the single child `a` and a secondary document whose operation
holds only the `__schema` selection; with `{a}` alone the secondary document
is absent. -/
theorem introspection_split_witness :
    (∃ children,
      request_from_graphql_document 1
          ⟨[.operation "query" [fieldWith "__schema" [leafField "x"], leafField "a"]]⟩
          abRoot abRoot [] =
        .ok ⟨Request.mk none none [] (some children) [],
          match [fieldWith "__schema" [leafField "x"],
              leafField "a"].find? (fun s => field_name s == "__schema") with
          | none => none
          | some s0 =>
            some ⟨([] ++ Definition.operation "query"
              [fieldWith "__schema" [leafField "x"], leafField "a"] :: []).set 0
              (.operation "query" [s0])⟩⟩ ∧
      children.map Request.key =
        ([fieldWith "__schema" [leafField "x"], leafField "a"].filter
          (fun s => !(field_name s == "__schema"))).map
          (fun s => some (field_key s))) ∧
    (∃ children,
      request_from_graphql_document 1 ⟨[.operation "query" [leafField "a"]]⟩
          abRoot abRoot [] =
        .ok ⟨Request.mk none none [] (some children) [],
          match [leafField "a"].find? (fun s => field_name s == "__schema") with
          | none => none
          | some s0 =>
            some ⟨([] ++ Definition.operation "query" [leafField "a"] :: []).set 0
              (.operation "query" [s0])⟩⟩ ∧
      children.map Request.key =
        ([leafField "a"].filter (fun s => !(field_name s == "__schema"))).map
          (fun s => some (field_key s))) :=
  ⟨introspection_split 0 "query" [] []
      [fieldWith "__schema" [leafField "x"], leafField "a"] abRoot abRoot []
      rfl rfl
      (by
        intro s hs
        simp only [List.mem_cons, List.mem_singleton] at hs
        rcases hs with rfl | rfl | h
        · exact ⟨none, "__schema", [], some [leafField "x"], rfl⟩
        · exact ⟨none, "a", [], none, rfl⟩
        · cases h)
      (by decide)
      (by
        intro s hs hn
        simp only [List.mem_cons, List.mem_singleton] at hs
        rcases hs with rfl | rfl | h
        · exact absurd rfl hn
        · exact ⟨rfl, rfl⟩
        · cases h),
   introspection_split 0 "query" [] [] [leafField "a"] abRoot abRoot []
      rfl rfl
      (by
        intro s hs
        simp only [List.mem_singleton] at hs
        subst hs
        exact ⟨none, "a", [], none, rfl⟩)
      (by decide)
      (by
        intro s hs hn
        simp only [List.mem_singleton] at hs
        subst hs
        exact ⟨rfl, rfl⟩)⟩

end GraphJoiner
